import Mathlib

/-!
Shallow embedding of the `ArcCStr` library (src/lib.rs): a thread-safe
reference-counted null-terminated byte string whose single heap block holds
an `AtomicUsize` reference count followed by the payload bytes and a
trailing `0u8` terminator.

Modelling conventions:
* `usize` values are `Nat` reduced modulo `2 ^ 64` exactly where the Rust
  arithmetic may wrap (`fetch_add` / `fetch_sub`).
* The heap is an association list from addresses (`Nat`) to live
  allocations; `heap::allocate` hands out the next fresh address.
* A `Shared<u8>` pointer inside an `ArcCStr` is a bare address.
* Panics (`&b[0]` on an empty slice) and `abort()` are modelled as the
  operation not returning a value; the observable side effects performed
  before the panic/abort are recorded in an event trace.
-/

/-- The memory orderings of `std::sync::atomic::Ordering` used by the code. -/
inductive MemOrder
  | relaxed
  | release
  | acquire
  | seqcst
  deriving DecidableEq, Repr

/-- Observable memory events of construction, clone and drop, in program
order: allocation, the `SeqCst` store initializing the counter, the
`copy_nonoverlapping` of the payload, the write of the terminating `0u8`,
the out-of-bounds panic of `&b[0]` on an empty slice, the atomic
`fetch_add`/`fetch_sub`, `atomic::fence`, `heap::deallocate`, `abort`. -/
inductive Event
  | alloc (size align : Nat)
  | storeCounter (v : Nat) (o : MemOrder)
  | copyPayload (b : List Nat)
  | writeNul
  | indexPanic
  | fetchAdd (n : Nat) (o : MemOrder)
  | fetchSub (n : Nat) (o : MemOrder)
  | fence (o : MemOrder)
  | dealloc (size align : Nat)
  | abortProc
  deriving DecidableEq, Repr

/-- `size_of::<AtomicUsize>()` on the 64-bit platform the crate targets. -/
def ausSize : Nat := 8

/-- `align_of::<AtomicUsize>()` on the 64-bit platform the crate targets. -/
def ausAlign : Nat := 8

/-- `usize` arithmetic wraps modulo `2 ^ 64`. -/
def USIZE_MOD : Nat := 2 ^ 64

/-- `const MAX_REFCOUNT: usize = (isize::MAX) as usize` (src/lib.rs:76). -/
def MAX_REFCOUNT : Nat := 2 ^ 63 - 1

/-- One backing allocation: the `AtomicUsize` header value, the bytes that
follow the header (payload plus terminator, as laid down by construction),
and the size/alignment the block was allocated with. -/
structure Allocation where
  counter : Nat
  data : List Nat
  size : Nat
  align : Nat
  deriving DecidableEq, Repr

/-- The heap: the next fresh address and the live blocks. -/
structure Heap where
  next : Nat
  blocks : List (Nat × Allocation)
  deriving DecidableEq, Repr

def Heap.empty : Heap := ⟨0, []⟩

/-- First block stored at address `p`. -/
def findBlock : List (Nat × Allocation) → Nat → Option Allocation
  | [], _ => none
  | (q, al) :: rest, p => if q = p then some al else findBlock rest p

/-- Replace the first block stored at address `p`. -/
def updateBlock : List (Nat × Allocation) → Nat → Allocation → List (Nat × Allocation)
  | [], _, _ => []
  | (q, al) :: rest, p, al' =>
    if q = p then (q, al') :: rest else (q, al) :: updateBlock rest p al'

/-- Remove the first block stored at address `p` (`heap::deallocate`). -/
def removeBlock : List (Nat × Allocation) → Nat → List (Nat × Allocation)
  | [], _ => []
  | (q, al) :: rest, p => if q = p then rest else (q, al) :: removeBlock rest p

def Heap.find (h : Heap) (p : Nat) : Option Allocation := findBlock h.blocks p

/-- `pub struct ArcCStr { ptr: Shared<u8> }` (src/lib.rs:138). -/
structure ArcCStr where
  ptr : Nat
  deriving DecidableEq, Repr

/-- The bytes of `CStr::from_ptr`, terminator included: everything up to and
including the first `0` (`to_bytes_with_nul`). -/
def takeToNul : List Nat → List Nat
  | [] => []
  | x :: xs => if x = 0 then [0] else x :: takeToNul xs

/-- The bytes of `CStr::from_ptr` with the terminator stripped
(`to_bytes`): everything strictly before the first `0`. -/
def stripToNul : List Nat → List Nat
  | [] => []
  | x :: xs => if x = 0 then [] else x :: stripToNul xs

/-- `impl From<&[u8]> for ArcCStr` (src/lib.rs:145-171), with its event
trace.  The block of `size_of::<AtomicUsize>() + b.len() + 1` bytes is
allocated with the alignment of `AtomicUsize`, the counter is stored first
(value 1, `SeqCst`), then `copy_nonoverlapping` copies the payload from
`&b[0]`, then the terminating `0u8` is written.  On an empty slice the
expression `&b[0]` panics (index out of bounds) after the allocation and
the counter store but before any payload write, and no handle is
returned. -/
def ArcCStr.fromBytesE (h : Heap) (b : List Nat) : List Event × Option (ArcCStr × Heap) :=
  let size := ausSize + b.length + 1
  match b with
  | [] => ([.alloc size ausAlign, .storeCounter 1 .seqcst, .indexPanic], none)
  | _ :: _ =>
    ([.alloc size ausAlign, .storeCounter 1 .seqcst, .copyPayload b, .writeNul],
      some (⟨h.next⟩, ⟨h.next + 1, (h.next, ⟨1, b ++ [0], size, ausAlign⟩) :: h.blocks⟩))

/-- The value of `ArcCStr::from(b: &[u8])`: `none` models the panic. -/
def ArcCStr.fromBytes (h : Heap) (b : List Nat) : Option (ArcCStr × Heap) :=
  (ArcCStr.fromBytesE h b).2

/-- UTF-8 encoding of one scalar value. -/
def utf8Bytes (c : Char) : List Nat :=
  let n := c.toNat
  if n < 128 then [n]
  else if n < 2048 then [192 + n / 64, 128 + n % 64]
  else if n < 65536 then [224 + n / 4096, 128 + (n / 64) % 64, 128 + n % 64]
  else [240 + n / 262144, 128 + (n / 4096) % 64, 128 + (n / 64) % 64, 128 + n % 64]

/-- UTF-8 bytes of a string (`str::as_bytes`). -/
def strBytes (s : String) : List Nat := (s.data.map utf8Bytes).flatten

/-- `impl From<&str> for ArcCStr`: `Self::from(s.as_bytes())` (src/lib.rs:173-177). -/
def ArcCStr.fromStr (h : Heap) (s : String) : Option (ArcCStr × Heap) :=
  ArcCStr.fromBytes h (strBytes s)

/-- `impl From<String> for ArcCStr`: `Self::from(&*s)` (src/lib.rs:179-183). -/
def ArcCStr.fromString (h : Heap) (s : String) : Option (ArcCStr × Heap) :=
  ArcCStr.fromStr h s

/-- `impl From<&CStr> for ArcCStr`: `Self::from(s.to_bytes())`
(src/lib.rs:193-197).  A `&CStr` value is modelled by its raw bytes
`d` (payload followed by the terminating `0`). -/
def ArcCStr.fromCStrRef (h : Heap) (d : List Nat) : Option (ArcCStr × Heap) :=
  ArcCStr.fromBytes h (stripToNul d)

/-- `impl From<CString> for ArcCStr`: `Self::from(&*s)` derefs to `&CStr`
(src/lib.rs:186-190). -/
def ArcCStr.fromCString (h : Heap) (d : List Nat) : Option (ArcCStr × Heap) :=
  ArcCStr.fromCStrRef h d

/-- `ArcCStr::strong_count`: `self.atomic().load(SeqCst)` (src/lib.rs:221-223). -/
def ArcCStr.strong_count (h : Heap) (a : ArcCStr) : Option Nat :=
  (h.find a.ptr).map Allocation.counter

/-- Result of `clone`: either a new handle (and the heap after the
`fetch_add`), or an `abort()` of the process (the heap at that moment is
recorded so the increment preceding the abort stays observable). -/
inductive CloneRes
  | ok (a : ArcCStr) (h : Heap)
  | aborted (h : Heap)
  deriving DecidableEq, Repr

/-- `impl Clone for ArcCStr` (src/lib.rs:281-313), with its event trace:
`let old_size = self.atomic().fetch_add(1, Relaxed); if old_size >
MAX_REFCOUNT { abort() } ArcCStr { ptr: self.ptr }`.  `none` means the
handle does not address a live block (unreachable under the ownership
invariant). -/
def ArcCStr.cloneE (h : Heap) (a : ArcCStr) : List Event × Option CloneRes :=
  match h.find a.ptr with
  | none => ([], none)
  | some al =>
    let old := al.counter
    let h' : Heap := ⟨h.next, updateBlock h.blocks a.ptr { al with counter := (old + 1) % USIZE_MOD }⟩
    if old > MAX_REFCOUNT then
      ([.fetchAdd 1 .relaxed, .abortProc], some (.aborted h'))
    else
      ([.fetchAdd 1 .relaxed], some (.ok ⟨a.ptr⟩ h'))

def ArcCStr.clone (h : Heap) (a : ArcCStr) : Option CloneRes :=
  (ArcCStr.cloneE h a).2

/-- Result of `drop`: other references remain (`live`), or this was the
last reference and the block was deallocated with the given size and
alignment (`dealloc`). -/
inductive DropRes
  | live (h : Heap)
  | dealloc (size align : Nat) (h : Heap)
  deriving DecidableEq, Repr

/-- `impl Drop for ArcCStr` (src/lib.rs:352-383) plus `drop_slow`
(src/lib.rs:237-244), with its event trace: `if self.atomic().fetch_sub(1,
Release) != 1 { return; } atomic::fence(Acquire); self.drop_slow()`, where
`drop_slow` runs `atomic::fence(Acquire)` again, reads `blen =
self.to_bytes_with_nul().len()` and calls `heap::deallocate(self.ptr,
size_of::<AtomicUsize>() + blen, align_of::<AtomicUsize>())`. -/
def ArcCStr.dropE (h : Heap) (a : ArcCStr) : List Event × Option DropRes :=
  match h.find a.ptr with
  | none => ([], none)
  | some al =>
    let old := al.counter
    if old ≠ 1 then
      ([.fetchSub 1 .release],
        some (.live ⟨h.next, updateBlock h.blocks a.ptr { al with counter := (old + (USIZE_MOD - 1)) % USIZE_MOD }⟩))
    else
      let blen := (takeToNul al.data).length
      ([.fetchSub 1 .release, .fence .acquire, .fence .acquire, .dealloc (ausSize + blen) ausAlign],
        some (.dealloc (ausSize + blen) ausAlign ⟨h.next, removeBlock h.blocks a.ptr⟩))

def ArcCStr.drop (h : Heap) (a : ArcCStr) : Option DropRes :=
  (ArcCStr.dropE h a).2

/-- `ArcCStr::ptr_eq`: `this.ptr.offset(0) == other.ptr.offset(0)`
(src/lib.rs:262-264). -/
def ArcCStr.ptr_eq (a b : ArcCStr) : Bool :=
  a.ptr == b.ptr

/-- `impl Deref for ArcCStr` (src/lib.rs:315-333): the `CStr` starting at
offset `size_of::<AtomicUsize>()`, i.e. the block's data up to and
including the first `0`. -/
def ArcCStr.deref (h : Heap) (a : ArcCStr) : Option (List Nat) :=
  (h.find a.ptr).map fun al => takeToNul al.data

/-- `CStr::to_bytes` of the dereferenced view: the content without the
terminator. -/
def ArcCStr.to_bytes (h : Heap) (a : ArcCStr) : Option (List Nat) :=
  (h.find a.ptr).map fun al => stripToNul al.data

/-- `impl PartialEq for ArcCStr`: `*(*self) == *(*other)` compares the
dereferenced `CStr`s, whose `PartialEq` compares `to_bytes()`
(src/lib.rs:399-401). -/
def ArcCStr.eqBytes (h : Heap) (a b : ArcCStr) : Option Bool := do
  let x ← ArcCStr.to_bytes h a
  let y ← ArcCStr.to_bytes h b
  pure (decide (x = y))

/-- Byte-wise lexicographic comparison of `&[u8]` (`Ord` on slices). -/
def lexCmp : List Nat → List Nat → Ordering
  | [], [] => .eq
  | [], _ :: _ => .lt
  | _ :: _, [] => .gt
  | x :: xs, y :: ys => if x < y then .lt else if y < x then .gt else lexCmp xs ys

/-- `impl Ord for ArcCStr`: `(**self).cmp(&**other)` on the dereferenced
`CStr`s, whose `Ord` compares `to_bytes()` lexicographically
(src/lib.rs:522-524). -/
def ArcCStr.cmp (h : Heap) (a b : ArcCStr) : Option Ordering := do
  let x ← ArcCStr.to_bytes h a
  let y ← ArcCStr.to_bytes h b
  pure (lexCmp x y)

/-- `impl Hash for ArcCStr`: `(**self).hash(state)` (src/lib.rs:540-544).
`CStr`'s `Hash` feeds `to_bytes_with_nul()` to the hasher, so the bytes fed
to any hasher — which determine the hash value — are the dereferenced
content, terminator included. -/
def ArcCStr.hashInput (h : Heap) (a : ArcCStr) : Option (List Nat) :=
  (h.find a.ptr).map fun al => takeToNul al.data

/-- Lowercase hexadecimal digit, as produced by `ascii::escape_default`. -/
def hexDigit (n : Nat) : Char :=
  if n < 10 then Char.ofNat (48 + n) else Char.ofNat (87 + n)

/-- `std::ascii::escape_default` for one byte. -/
def escapeDefault (b : Nat) : List Char :=
  if b = 9 then ['\\', 't']
  else if b = 13 then ['\\', 'r']
  else if b = 10 then ['\\', 'n']
  else if b = 92 then ['\\', '\\']
  else if b = 39 then ['\\', '\x27']
  else if b = 34 then ['\\', '"']
  else if 32 ≤ b ∧ b ≤ 126 then [Char.ofNat b]
  else ['\\', 'x', hexDigit (b / 16), hexDigit (b % 16)]

/-- `impl fmt::Debug for ArcCStr`: `fmt::Debug::fmt(&**self, f)`
(src/lib.rs:528-532).  `CStr`'s `Debug` writes a double quote, then
`to_bytes()` with each byte passed through `ascii::escape_default`, then a
closing double quote. -/
def ArcCStr.debugFmt (h : Heap) (a : ArcCStr) : Option (List Char) :=
  (ArcCStr.to_bytes h a).map fun bs =>
    '"' :: ((bs.map escapeDefault).flatten ++ ['"'])

/-- `n` successive `clone`s of the handle `a` (the returned handles all
carry the same address, so only the heap evolves). -/
def cloneN : Nat → Heap → ArcCStr → Option Heap
  | 0, h, _ => some h
  | n + 1, h, a =>
    match ArcCStr.clone h a with
    | some (.ok _ h') => cloneN n h' a
    | _ => none

/-- `k` successive `drop`s of handles aliasing the address of `a`. -/
def dropN : Nat → Heap → ArcCStr → Option Heap
  | 0, h, _ => some h
  | k + 1, h, a =>
    match ArcCStr.drop h a with
    | some (.live h') => dropN k h' a
    | some (.dealloc _ _ h') => dropN k h' a
    | none => none

/-! Helper lemmas about the heap association list and the terminator scan. -/

theorem findBlock_update_self (l : List (Nat × Allocation)) (p : Nat) (al al' : Allocation)
    (hf : findBlock l p = some al) :
    findBlock (updateBlock l p al') p = some al' := by
  induction l with
  | nil => simp [findBlock] at hf
  | cons hd tl ih =>
    obtain ⟨q, b⟩ := hd
    by_cases hq : q = p
    · simp [findBlock, updateBlock, hq]
    · simp [findBlock, updateBlock, hq] at hf ⊢
      exact ih hf

theorem findBlock_update_other (l : List (Nat × Allocation)) (p r : Nat) (al' : Allocation)
    (hr : r ≠ p) :
    findBlock (updateBlock l p al') r = findBlock l r := by
  induction l with
  | nil => simp [updateBlock]
  | cons hd tl ih =>
    obtain ⟨q, b⟩ := hd
    by_cases hq : q = p
    · subst hq
      simp [findBlock, updateBlock, Ne.symm hr]
    · simp only [updateBlock, if_neg hq]
      by_cases hqr : q = r
      · simp [findBlock, hqr]
      · simp [findBlock, hqr, ih]

theorem findBlock_eq_none_of_not_mem (l : List (Nat × Allocation)) (p : Nat)
    (hp : p ∉ l.map Prod.fst) :
    findBlock l p = none := by
  induction l with
  | nil => rfl
  | cons hd tl ih =>
    obtain ⟨q, b⟩ := hd
    simp only [List.map_cons, List.mem_cons] at hp
    push_neg at hp
    simp [findBlock, Ne.symm hp.1, ih hp.2]

theorem findBlock_remove_self (l : List (Nat × Allocation)) (p : Nat)
    (hnd : (l.map Prod.fst).Nodup) :
    findBlock (removeBlock l p) p = none := by
  induction l with
  | nil => rfl
  | cons hd tl ih =>
    obtain ⟨q, b⟩ := hd
    simp only [List.map_cons, List.nodup_cons] at hnd
    by_cases hq : q = p
    · subst hq
      simpa [removeBlock] using findBlock_eq_none_of_not_mem tl q hnd.1
    · simp [removeBlock, findBlock, hq, ih hnd.2]

theorem takeToNul_append_nul (b : List Nat) (hb : 0 ∉ b) :
    takeToNul (b ++ [0]) = b ++ [0] := by
  induction b with
  | nil => rfl
  | cons x xs ih =>
    simp only [List.mem_cons] at hb
    push_neg at hb
    simp [takeToNul, Ne.symm hb.1, ih hb.2]

theorem stripToNul_append_nul (b : List Nat) (hb : 0 ∉ b) :
    stripToNul (b ++ [0]) = b := by
  induction b with
  | nil => rfl
  | cons x xs ih =>
    simp only [List.mem_cons] at hb
    push_neg at hb
    simp [stripToNul, Ne.symm hb.1, ih hb.2]

theorem usize_add_one (c : Nat) (hc : c ≤ MAX_REFCOUNT) :
    (c + 1) % USIZE_MOD = c + 1 := by
  have h1 : MAX_REFCOUNT = 9223372036854775807 := by norm_num [MAX_REFCOUNT]
  have h2 : USIZE_MOD = 18446744073709551616 := by norm_num [USIZE_MOD]
  rw [h1] at hc
  rw [h2]
  omega

theorem usize_sub_one (c : Nat) (h1 : 1 ≤ c) (h2 : c ≤ USIZE_MOD) :
    (c + (USIZE_MOD - 1)) % USIZE_MOD = c - 1 := by
  have hm : USIZE_MOD = 18446744073709551616 := by norm_num [USIZE_MOD]
  rw [hm] at h2 ⊢
  omega

/-- Unfolding of a successful `clone` on a live block whose counter has not
reached the ceiling. -/
theorem clone_ok (h : Heap) (a : ArcCStr) (al : Allocation)
    (hf : h.find a.ptr = some al) (hc : al.counter ≤ MAX_REFCOUNT) :
    ArcCStr.clone h a =
      some (.ok ⟨a.ptr⟩ ⟨h.next, updateBlock h.blocks a.ptr { al with counter := al.counter + 1 }⟩) := by
  unfold ArcCStr.clone ArcCStr.cloneE
  rw [hf]
  simp only [Nat.not_lt.mpr hc, gt_iff_lt, if_false, usize_add_one al.counter hc]

/-- Unfolding of a `drop` on a live block whose counter is not 1. -/
theorem drop_live (h : Heap) (a : ArcCStr) (al : Allocation)
    (hf : h.find a.ptr = some al) (h1 : al.counter ≠ 1) (h2 : 1 ≤ al.counter)
    (h3 : al.counter ≤ USIZE_MOD) :
    ArcCStr.drop h a =
      some (.live ⟨h.next, updateBlock h.blocks a.ptr { al with counter := al.counter - 1 }⟩) := by
  unfold ArcCStr.drop ArcCStr.dropE
  rw [hf]
  simp only [h1, ne_eq, not_false_iff, if_true, usize_sub_one al.counter h2 h3]

/-! Claim theorems. -/

/-- Claim C1 (amended: nonempty input).  For any nonempty input byte
sequence without an embedded terminator byte, constructing a handle and
dereferencing it yields exactly the original bytes followed by one
terminator, and reading the content (`to_bytes`) reproduces the original
sequence exactly. -/
theorem claim_C1_roundtrip (h : Heap) (b : List Nat) (hne : b ≠ []) (hnonul : 0 ∉ b) :
    ∃ h', ArcCStr.fromBytes h b = some (⟨h.next⟩, h') ∧
      ArcCStr.deref h' ⟨h.next⟩ = some (b ++ [0]) ∧
      ArcCStr.to_bytes h' ⟨h.next⟩ = some b := by
  obtain ⟨x, xs, rfl⟩ := List.exists_cons_of_ne_nil hne
  have ht : takeToNul (x :: (xs ++ [0])) = x :: (xs ++ [0]) := by
    simpa using takeToNul_append_nul (x :: xs) hnonul
  have hs : stripToNul (x :: (xs ++ [0])) = x :: xs := by
    simpa using stripToNul_append_nul (x :: xs) hnonul
  refine ⟨_, rfl, ?_, ?_⟩
  · unfold ArcCStr.deref Heap.find findBlock
    simp [ht]
  · unfold ArcCStr.to_bytes Heap.find findBlock
    simp [hs]

/-- Claim C1, counterexample to the unamended statement: the empty byte
sequence contains no embedded terminator, yet construction panics
(returns no handle), so dereferencing cannot reproduce the input. -/
theorem claim_C1_empty_cex :
    (0 : Nat) ∉ ([] : List Nat) ∧ ArcCStr.fromBytes Heap.empty [] = none :=
  ⟨by decide, rfl⟩

/-- Claim C1, witness: concrete round trip on the bytes of "foo". -/
theorem claim_C1_witness :
    ∃ h', ArcCStr.fromBytes Heap.empty [102, 111, 111] = some (⟨0⟩, h') ∧
      ArcCStr.deref h' ⟨0⟩ = some ([102, 111, 111] ++ [0]) ∧
      ArcCStr.to_bytes h' ⟨0⟩ = some [102, 111, 111] :=
  claim_C1_roundtrip Heap.empty [102, 111, 111] (by decide) (by decide)

/-- Claim C7 (amended: nonempty input).  For nonempty input, construction
allocates a single block of `size_of::<AtomicUsize>() + input_length + 1`
bytes with the alignment of `AtomicUsize`, and initializes it in program
order: first the counter store (value 1), then the verbatim payload copy,
then the single terminating zero byte; the returned handle's counter reads
1. -/
theorem claim_C7_construction_layout (h : Heap) (b : List Nat) (hne : b ≠ []) :
    (ArcCStr.fromBytesE h b).1 =
      [.alloc (ausSize + b.length + 1) ausAlign, .storeCounter 1 .seqcst,
        .copyPayload b, .writeNul] ∧
    ∃ h', ArcCStr.fromBytes h b = some (⟨h.next⟩, h') ∧
      ArcCStr.strong_count h' ⟨h.next⟩ = some 1 := by
  obtain ⟨x, xs, rfl⟩ := List.exists_cons_of_ne_nil hne
  refine ⟨rfl, _, rfl, ?_⟩
  unfold ArcCStr.strong_count Heap.find findBlock
  simp

/-- Claim C7, counterexample to the unamended statement: on the empty
input the allocation and the counter store do happen, but the indexing
`&b[0]` then panics, so no zero byte is ever appended and no handle (whose
counter could read 1) is returned. -/
theorem claim_C7_empty_cex :
    (ArcCStr.fromBytesE Heap.empty []).1 =
      [.alloc 9 8, .storeCounter 1 .seqcst, .indexPanic] ∧
    (ArcCStr.fromBytesE Heap.empty []).2 = none :=
  ⟨rfl, rfl⟩

/-- Claim C7, witness: concrete layout for the single byte 53. -/
theorem claim_C7_witness :
    (ArcCStr.fromBytesE Heap.empty [53]).1 =
      [.alloc (ausSize + [53].length + 1) ausAlign, .storeCounter 1 .seqcst,
        .copyPayload [53], .writeNul] ∧
    ∃ h', ArcCStr.fromBytes Heap.empty [53] = some (⟨0⟩, h') ∧
      ArcCStr.strong_count h' ⟨0⟩ = some 1 :=
  claim_C7_construction_layout Heap.empty [53] (by decide)

/-- Claim C9: formatting the handle constructed from the text "foo" for
debug output yields exactly the five characters double quote, f, o, o,
double quote. -/
theorem claim_C9_debug_foo :
    ((ArcCStr.fromStr Heap.empty "foo").bind fun p => ArcCStr.debugFmt p.2 p.1) =
      some ['"', 'f', 'o', 'o', '"'] := by
  decide

/-- Claim C10: construction from an empty byte sequence — via the byte
slice, text slice, owned string, borrowed null-terminated view (raw bytes
`[0]`), or owned null-terminated string constructors — never returns a
handle: the byte-slice constructor indexes the first input byte, so it
panics out of bounds instead of completing (last event of the trace). -/
theorem claim_C10_empty_input (h : Heap) :
    ArcCStr.fromBytes h [] = none ∧
    ArcCStr.fromStr h "" = none ∧
    ArcCStr.fromString h "" = none ∧
    ArcCStr.fromCStrRef h [0] = none ∧
    ArcCStr.fromCString h [0] = none ∧
    (ArcCStr.fromBytesE h []).1.getLast? = some .indexPanic :=
  ⟨rfl, rfl, rfl, rfl, rfl, rfl⟩

/-- Claim C3: `clone` performs a fetch-and-add by 1 on the counter; if the
value observed before the increment exceeded `MAX_REFCOUNT` (`isize::MAX`),
the process aborts unconditionally (after the increment); otherwise `clone`
returns a new handle to the same allocation and does not abort. -/
theorem claim_C3_overflow_guard (h : Heap) (a : ArcCStr) (al : Allocation)
    (hf : h.find a.ptr = some al) :
    (MAX_REFCOUNT < al.counter →
      ArcCStr.clone h a = some (.aborted ⟨h.next, updateBlock h.blocks a.ptr
        { al with counter := (al.counter + 1) % USIZE_MOD }⟩)) ∧
    (al.counter ≤ MAX_REFCOUNT →
      ArcCStr.clone h a = some (.ok ⟨a.ptr⟩ ⟨h.next, updateBlock h.blocks a.ptr
        { al with counter := al.counter + 1 }⟩)) := by
  constructor
  · intro hc
    unfold ArcCStr.clone ArcCStr.cloneE
    rw [hf]
    simp only [gt_iff_lt, if_pos hc]
  · intro hc
    exact clone_ok h a al hf hc

/-- Claim C3, witness: a counter of 1 is below the ceiling, so the clone
succeeds with the counter bumped to 2. -/
theorem claim_C3_witness :
    ArcCStr.clone ⟨1, [(0, ⟨1, [53, 0], 10, 8⟩)]⟩ ⟨0⟩ =
      some (.ok ⟨0⟩ ⟨1, [(0, ⟨2, [53, 0], 10, 8⟩)]⟩) :=
  (claim_C3_overflow_guard ⟨1, [(0, ⟨1, [53, 0], 10, 8⟩)]⟩ ⟨0⟩ ⟨1, [53, 0], 10, 8⟩ rfl).2
    (by decide)

/-- Claim C5: `ptr_eq` of a handle and its clone is true, and `ptr_eq` of
two handles produced by independent (sequential) constructions is false,
whatever the byte contents. -/
theorem claim_C5_ptr_eq (g g' h h1 h2 : Heap) (a a' a1 a2 : ArcCStr) (b1 b2 : List Nat)
    (hc : ArcCStr.clone g a = some (.ok a' g'))
    (hf1 : ArcCStr.fromBytes h b1 = some (a1, h1))
    (hf2 : ArcCStr.fromBytes h1 b2 = some (a2, h2)) :
    ArcCStr.ptr_eq a a' = true ∧ ArcCStr.ptr_eq a1 a2 = false := by
  constructor
  · unfold ArcCStr.clone ArcCStr.cloneE at hc
    cases hg : g.find a.ptr with
    | none => rw [hg] at hc; simp at hc
    | some al =>
      rw [hg] at hc
      by_cases hM : al.counter > MAX_REFCOUNT
      · simp only [gt_iff_lt, if_pos hM] at hc
        simp at hc
      · simp only [gt_iff_lt, if_neg hM] at hc
        simp only [Option.some.injEq, CloneRes.ok.injEq] at hc
        obtain ⟨ha, -⟩ := hc
        rw [← ha]
        simp [ArcCStr.ptr_eq]
  · cases b1 with
    | nil => simp [ArcCStr.fromBytes, ArcCStr.fromBytesE] at hf1
    | cons x xs =>
      cases b2 with
      | nil => simp [ArcCStr.fromBytes, ArcCStr.fromBytesE] at hf2
      | cons y ys =>
        simp only [ArcCStr.fromBytes, ArcCStr.fromBytesE, Option.some.injEq,
          Prod.mk.injEq] at hf1 hf2
        obtain ⟨ha1, hh1⟩ := hf1
        obtain ⟨ha2, -⟩ := hf2
        rw [← ha1, ← ha2, ← hh1]
        simp [ArcCStr.ptr_eq]

/-- Claim C5, witness: a concrete clone and two concrete constructions of
the same content "5". -/
theorem claim_C5_witness :
    ArcCStr.ptr_eq ⟨0⟩ ⟨0⟩ = true ∧ ArcCStr.ptr_eq ⟨0⟩ ⟨1⟩ = false :=
  claim_C5_ptr_eq ⟨1, [(0, ⟨1, [53, 0], 10, 8⟩)]⟩ ⟨1, [(0, ⟨2, [53, 0], 10, 8⟩)]⟩
    Heap.empty ⟨1, [(0, ⟨1, [53, 0], 10, 8⟩)]⟩
    ⟨2, [(1, ⟨1, [53, 0], 10, 8⟩), (0, ⟨1, [53, 0], 10, 8⟩)]⟩
    ⟨0⟩ ⟨0⟩ ⟨0⟩ ⟨1⟩ [53] [53] (by decide) rfl rfl

/-- Claim C8: the reference-count protocol's event traces: `clone` starts
with a relaxed fetch-and-add by 1; `drop` performs a release fetch-and-sub
by 1 and, only when the observed value was 1 (the final reference),
executes an acquire fence (twice, once in `drop` and once in `drop_slow`)
before the deallocation. -/
theorem claim_C8_memory_orderings (h : Heap) (a : ArcCStr) (al : Allocation)
    (hf : h.find a.ptr = some al) :
    (ArcCStr.cloneE h a).1.head? = some (.fetchAdd 1 .relaxed) ∧
    (al.counter ≠ 1 → (ArcCStr.dropE h a).1 = [.fetchSub 1 .release]) ∧
    (al.counter = 1 →
      (ArcCStr.dropE h a).1 =
        [.fetchSub 1 .release, .fence .acquire, .fence .acquire,
          .dealloc (ausSize + (takeToNul al.data).length) ausAlign]) := by
  refine ⟨?_, ?_, ?_⟩
  · unfold ArcCStr.cloneE
    rw [hf]
    by_cases hM : al.counter > MAX_REFCOUNT
    · simp only [gt_iff_lt, if_pos hM]; rfl
    · simp only [gt_iff_lt, if_neg hM]; rfl
  · intro h1
    unfold ArcCStr.dropE
    rw [hf]
    simp only [ne_eq, h1, not_false_eq_true, if_pos]
  · intro h1
    unfold ArcCStr.dropE
    rw [hf]
    simp [h1]

/-- Claim C8, witness: the traces at a concrete final-reference block. -/
theorem claim_C8_witness :
    (ArcCStr.cloneE ⟨1, [(0, ⟨1, [53, 0], 10, 8⟩)]⟩ ⟨0⟩).1.head? =
      some (.fetchAdd 1 .relaxed) ∧
    ((1 : Nat) ≠ 1 →
      (ArcCStr.dropE ⟨1, [(0, ⟨1, [53, 0], 10, 8⟩)]⟩ ⟨0⟩).1 = [.fetchSub 1 .release]) ∧
    ((1 : Nat) = 1 →
      (ArcCStr.dropE ⟨1, [(0, ⟨1, [53, 0], 10, 8⟩)]⟩ ⟨0⟩).1 =
        [.fetchSub 1 .release, .fence .acquire, .fence .acquire,
          .dealloc (ausSize + (takeToNul [53, 0]).length) ausAlign]) :=
  claim_C8_memory_orderings ⟨1, [(0, ⟨1, [53, 0], 10, 8⟩)]⟩ ⟨0⟩ ⟨1, [53, 0], 10, 8⟩ rfl

/-- Claim C4: on drop, if the counter observed before the fetch-and-sub
was not exactly 1, the dropping handle returns without deallocating and
the backing allocation remains live; if it was exactly 1, the allocation
is removed from the heap (so no later operation can deallocate it again),
and the deallocation uses exactly the size and alignment computed at
construction (`size_of::<AtomicUsize>() + payload length + 1` with the
alignment of `AtomicUsize`), given the no-embedded-NUL precondition on the
payload. -/
theorem claim_C4_drop_dealloc (h : Heap) (a : ArcCStr) (al : Allocation) (b : List Nat)
    (hf : h.find a.ptr = some al)
    (hdata : al.data = b ++ [0]) (hnonul : 0 ∉ b)
    (hsize : al.size = ausSize + b.length + 1) (halign : al.align = ausAlign)
    (hlive : 1 ≤ al.counter) (hbound : al.counter ≤ USIZE_MOD)
    (hwf : (h.blocks.map Prod.fst).Nodup) :
    (al.counter ≠ 1 →
      ArcCStr.drop h a = some (.live ⟨h.next, updateBlock h.blocks a.ptr
        { al with counter := al.counter - 1 }⟩) ∧
      Heap.find ⟨h.next, updateBlock h.blocks a.ptr { al with counter := al.counter - 1 }⟩
        a.ptr = some { al with counter := al.counter - 1 }) ∧
    (al.counter = 1 →
      ArcCStr.drop h a = some (.dealloc al.size al.align
        ⟨h.next, removeBlock h.blocks a.ptr⟩) ∧
      Heap.find ⟨h.next, removeBlock h.blocks a.ptr⟩ a.ptr = none) := by
  constructor
  · intro h1
    refine ⟨drop_live h a al hf h1 hlive hbound, ?_⟩
    unfold Heap.find
    exact findBlock_update_self h.blocks a.ptr al _ hf
  · intro h1
    constructor
    · unfold ArcCStr.drop ArcCStr.dropE
      rw [hf]
      have hb : (takeToNul al.data).length = b.length + 1 := by
        rw [hdata, takeToNul_append_nul b hnonul]
        simp
      simp only [h1, ne_eq, not_true_eq_false, if_neg, if_false, hb, hsize, halign]
      rfl
    · unfold Heap.find
      exact findBlock_remove_self h.blocks a.ptr hwf

/-- Claim C4, witness: dropping the final reference to a concrete block
holding "5" deallocates it with the construction-time size 10 and
alignment 8. -/
theorem claim_C4_witness :
    ((1 : Nat) ≠ 1 →
      ArcCStr.drop ⟨1, [(0, ⟨1, [53, 0], 10, 8⟩)]⟩ ⟨0⟩ =
        some (.live ⟨1, updateBlock [(0, ⟨1, [53, 0], 10, 8⟩)] 0 ⟨1 - 1, [53, 0], 10, 8⟩⟩) ∧
      Heap.find ⟨1, updateBlock [(0, ⟨1, [53, 0], 10, 8⟩)] 0 ⟨1 - 1, [53, 0], 10, 8⟩⟩ 0 =
        some ⟨1 - 1, [53, 0], 10, 8⟩) ∧
    ((1 : Nat) = 1 →
      ArcCStr.drop ⟨1, [(0, ⟨1, [53, 0], 10, 8⟩)]⟩ ⟨0⟩ =
        some (.dealloc 10 8 ⟨1, removeBlock [(0, ⟨1, [53, 0], 10, 8⟩)] 0⟩) ∧
      Heap.find ⟨1, removeBlock [(0, ⟨1, [53, 0], 10, 8⟩)] 0⟩ 0 = none) :=
  claim_C4_drop_dealloc ⟨1, [(0, ⟨1, [53, 0], 10, 8⟩)]⟩ ⟨0⟩ ⟨1, [53, 0], 10, 8⟩ [53]
    rfl rfl (by decide) rfl rfl (by decide) (by decide) (by decide)

/-- Claim C6: equality, ordering and hashing of two handles are determined
solely by the byte content of their dereferenced views, never by address
identity: for two handles over different allocations, equality is exactly
content equality, the ordering is the byte-wise lexicographic order of the
contents, and identical content feeds identical bytes to the hasher. -/
theorem claim_C6_content_comparisons (h : Heap) (a b : ArcCStr) (ala alb : Allocation)
    (pa pb : List Nat)
    (hfa : h.find a.ptr = some ala) (hfb : h.find b.ptr = some alb)
    (hda : ala.data = pa ++ [0]) (hdb : alb.data = pb ++ [0])
    (hna : 0 ∉ pa) (hnb : 0 ∉ pb) (hptr : a.ptr ≠ b.ptr) :
    ArcCStr.ptr_eq a b = false ∧
    ArcCStr.eqBytes h a b = some (decide (pa = pb)) ∧
    ArcCStr.cmp h a b = some (lexCmp pa pb) ∧
    (pa = pb → ArcCStr.hashInput h a = ArcCStr.hashInput h b) := by
  have ta : ArcCStr.to_bytes h a = some pa := by
    unfold ArcCStr.to_bytes
    rw [hfa]
    simp [hda, stripToNul_append_nul pa hna]
  have tb : ArcCStr.to_bytes h b = some pb := by
    unfold ArcCStr.to_bytes
    rw [hfb]
    simp [hdb, stripToNul_append_nul pb hnb]
  refine ⟨?_, ?_, ?_, ?_⟩
  · simp [ArcCStr.ptr_eq, hptr]
  · simp [ArcCStr.eqBytes, ta, tb]
  · simp [ArcCStr.cmp, ta, tb]
  · intro hpq
    unfold ArcCStr.hashInput
    rw [hfa, hfb]
    simp [hda, hdb, hpq]

/-- Claim C6, witness: two distinct allocations both holding "5" compare
equal and feed identical bytes to the hasher, and two distinct allocations
holding "5" and "6" order as byte-wise lexicographic less-than. -/
theorem claim_C6_witness :
    (ArcCStr.ptr_eq ⟨0⟩ ⟨1⟩ = false ∧
      ArcCStr.eqBytes ⟨2, [(0, ⟨1, [53, 0], 10, 8⟩), (1, ⟨1, [53, 0], 10, 8⟩)]⟩ ⟨0⟩ ⟨1⟩ =
        some (decide ([53] = [53])) ∧
      ArcCStr.cmp ⟨2, [(0, ⟨1, [53, 0], 10, 8⟩), (1, ⟨1, [53, 0], 10, 8⟩)]⟩ ⟨0⟩ ⟨1⟩ =
        some (lexCmp [53] [53]) ∧
      ([53] = [53] →
        ArcCStr.hashInput ⟨2, [(0, ⟨1, [53, 0], 10, 8⟩), (1, ⟨1, [53, 0], 10, 8⟩)]⟩ ⟨0⟩ =
          ArcCStr.hashInput ⟨2, [(0, ⟨1, [53, 0], 10, 8⟩), (1, ⟨1, [53, 0], 10, 8⟩)]⟩ ⟨1⟩)) ∧
    ArcCStr.cmp ⟨2, [(0, ⟨1, [53, 0], 10, 8⟩), (1, ⟨1, [54, 0], 10, 8⟩)]⟩ ⟨0⟩ ⟨1⟩ =
      some (lexCmp [53] [54]) :=
  ⟨claim_C6_content_comparisons ⟨2, [(0, ⟨1, [53, 0], 10, 8⟩), (1, ⟨1, [53, 0], 10, 8⟩)]⟩
      ⟨0⟩ ⟨1⟩ ⟨1, [53, 0], 10, 8⟩ ⟨1, [53, 0], 10, 8⟩ [53] [53]
      rfl rfl rfl rfl (by decide) (by decide) (by decide),
    (claim_C6_content_comparisons ⟨2, [(0, ⟨1, [53, 0], 10, 8⟩), (1, ⟨1, [54, 0], 10, 8⟩)]⟩
      ⟨0⟩ ⟨1⟩ ⟨1, [53, 0], 10, 8⟩ ⟨1, [54, 0], 10, 8⟩ [53] [54]
      rfl rfl rfl rfl (by decide) (by decide) (by decide)).2.2.1⟩

/-- `n` successive clones of a live handle whose counter stays at or below
the ceiling all succeed and add `n` to the counter. -/
theorem cloneN_ok (n : Nat) :
    ∀ (h : Heap) (a : ArcCStr) (al : Allocation),
      h.find a.ptr = some al → al.counter + n ≤ MAX_REFCOUNT + 1 →
      ∃ h', cloneN n h a = some h' ∧
        h'.find a.ptr = some { al with counter := al.counter + n } := by
  induction n with
  | zero =>
    intro h a al hf _
    exact ⟨h, rfl, hf⟩
  | succ k ih =>
    intro h a al hf hN
    have hc : al.counter ≤ MAX_REFCOUNT := by omega
    have hcl := clone_ok h a al hf hc
    have hf' : Heap.find
        ⟨h.next, updateBlock h.blocks a.ptr { al with counter := al.counter + 1 }⟩ a.ptr =
        some { al with counter := al.counter + 1 } := by
      unfold Heap.find
      exact findBlock_update_self h.blocks a.ptr al _ hf
    obtain ⟨h', hrun, hfind'⟩ := ih _ a { al with counter := al.counter + 1 } hf'
      (by show al.counter + 1 + k ≤ MAX_REFCOUNT + 1; omega)
    refine ⟨h', ?_, ?_⟩
    · simp only [cloneN]
      rw [hcl]
      exact hrun
    · have e : al.counter + 1 + k = al.counter + (k + 1) := by omega
      simpa [e] using hfind'

/-- `k` successive drops of handles to a live block whose counter exceeds
`k` all take the non-final path and subtract `k` from the counter. -/
theorem dropN_live (k : Nat) :
    ∀ (h : Heap) (a : ArcCStr) (al : Allocation),
      h.find a.ptr = some al → k + 1 ≤ al.counter → al.counter ≤ USIZE_MOD →
      ∃ h', dropN k h a = some h' ∧
        h'.find a.ptr = some { al with counter := al.counter - k } := by
  induction k with
  | zero =>
    intro h a al hf _ _
    exact ⟨h, rfl, hf⟩
  | succ j ih =>
    intro h a al hf hK hU
    have h1 : al.counter ≠ 1 := by omega
    have h2 : 1 ≤ al.counter := by omega
    have hdl := drop_live h a al hf h1 h2 hU
    have hf' : Heap.find
        ⟨h.next, updateBlock h.blocks a.ptr { al with counter := al.counter - 1 }⟩ a.ptr =
        some { al with counter := al.counter - 1 } := by
      unfold Heap.find
      exact findBlock_update_self h.blocks a.ptr al _ hf
    obtain ⟨h', hrun, hfind'⟩ := ih _ a { al with counter := al.counter - 1 } hf'
      (by show j + 1 ≤ al.counter - 1; omega)
      (by show al.counter - 1 ≤ USIZE_MOD; omega)
    refine ⟨h', ?_, ?_⟩
    · simp only [dropN]
      rw [hdl]
      exact hrun
    · have e : al.counter - 1 - j = al.counter - (j + 1) := by omega
      simpa [e] using hfind'

/-- Claim C2: `strong_count` of a freshly constructed handle is 1; after
`n` clones (no drops) it is `1 + n` (provided `n` stays at or below the
abort ceiling); after then dropping `k ≤ n` of those clones it is
`1 + n - k`. -/
theorem claim_C2_strong_count (h : Heap) (b : List Nat) (a : ArcCStr) (h1 : Heap)
    (n k : Nat)
    (hf : ArcCStr.fromBytes h b = some (a, h1))
    (hn : n ≤ MAX_REFCOUNT) (hk : k ≤ n) :
    ArcCStr.strong_count h1 a = some 1 ∧
    ∃ h2, cloneN n h1 a = some h2 ∧ ArcCStr.strong_count h2 a = some (1 + n) ∧
      ∃ h3, dropN k h2 a = some h3 ∧ ArcCStr.strong_count h3 a = some (1 + n - k) := by
  cases b with
  | nil => simp [ArcCStr.fromBytes, ArcCStr.fromBytesE] at hf
  | cons x xs =>
    simp only [ArcCStr.fromBytes, ArcCStr.fromBytesE, Option.some.injEq, Prod.mk.injEq] at hf
    obtain ⟨ha, hh1⟩ := hf
    have hfind : h1.find a.ptr =
        some ⟨1, (x :: xs) ++ [0], ausSize + (x :: xs).length + 1, ausAlign⟩ := by
      rw [← ha, ← hh1]
      unfold Heap.find findBlock
      simp
    have hUM : MAX_REFCOUNT + 1 ≤ USIZE_MOD := by
      norm_num [MAX_REFCOUNT, USIZE_MOD]
    refine ⟨?_, ?_⟩
    · simp [ArcCStr.strong_count, hfind]
    · obtain ⟨h2, hrun2, hfind2⟩ :=
        cloneN_ok n h1 a _ hfind (by simp; omega)
      refine ⟨h2, hrun2, ?_, ?_⟩
      · simp only [ArcCStr.strong_count, hfind2]
        rfl
      · obtain ⟨h3, hrun3, hfind3⟩ :=
          dropN_live k h2 a _ (by simpa using hfind2)
            (by simp; omega) (by simp; omega)
        refine ⟨h3, hrun3, ?_⟩
        simp only [ArcCStr.strong_count, hfind3]
        rfl

/-- Claim C2, witness: construct from "5", clone twice, drop one clone:
the counts read 1, 3 and 2. -/
theorem claim_C2_witness :
    ArcCStr.strong_count ⟨1, [(0, ⟨1, [53, 0], 10, 8⟩)]⟩ ⟨0⟩ = some 1 ∧
    ∃ h2, cloneN 2 ⟨1, [(0, ⟨1, [53, 0], 10, 8⟩)]⟩ ⟨0⟩ = some h2 ∧
      ArcCStr.strong_count h2 ⟨0⟩ = some (1 + 2) ∧
      ∃ h3, dropN 1 h2 ⟨0⟩ = some h3 ∧ ArcCStr.strong_count h3 ⟨0⟩ = some (1 + 2 - 1) :=
  claim_C2_strong_count Heap.empty [53] ⟨0⟩ ⟨1, [(0, ⟨1, [53, 0], 10, 8⟩)]⟩ 2 1
    rfl (by decide) (by decide)

/-- Claim C10, witness: the empty constructions at the empty heap. -/
theorem claim_C10_witness :
    ArcCStr.fromBytes Heap.empty [] = none ∧
    ArcCStr.fromStr Heap.empty "" = none ∧
    ArcCStr.fromString Heap.empty "" = none ∧
    ArcCStr.fromCStrRef Heap.empty [0] = none ∧
    ArcCStr.fromCString Heap.empty [0] = none ∧
    (ArcCStr.fromBytesE Heap.empty []).1.getLast? = some .indexPanic :=
  claim_C10_empty_input Heap.empty
